import Mathlib

set_option maxRecDepth 40000

/-!
Shallow embedding of `src/support.rs` from the clang-sys repository.

Rust strings are modelled as `List Char`.  Rust's `str::find` returns byte
indices; since all sentinel and marker strings used by the code are ASCII,
character positions and byte positions of those occurrences determine the
same text regions, so the model works with character indices throughout.
Rust's Unicode whitespace test is modelled by `Char.isWhitespace` (ASCII
whitespace), which fully covers the program's actual inputs and outputs.

Subprocess execution is modelled by an explicit `Runner` function from an
executable name and argument list to an optional `(stdout, stderr)` pair,
`none` meaning the process could not be launched (the `Err` case of
`run`).  A Rust `panic!` (from `unwrap`/`expect` or an out-of-order slice)
is modelled by `none` in the corresponding `Option` result.
-/

namespace ClangSys

/-- Rust string contents, as a list of characters. -/
abbrev Str := List Char

/-- Model of `str::find`: index of the first occurrence of `pat` as a
contiguous substring, if any. -/
def findSub (pat : Str) : Str → Option Nat
  | [] => if pat.isEmpty then some 0 else none
  | c :: t =>
    if pat.isPrefixOf (c :: t) then some 0
    else (findSub pat t).map (fun n => n + 1)

/-- Model of `str::split(sep)`: split at every occurrence of the separator
character; always returns at least one (possibly empty) segment. -/
def splitOnChar (sep : Char) : Str → List Str
  | [] => [[]]
  | c :: t =>
    if c = sep then [] :: splitOnChar sep t
    else
      match splitOnChar sep t with
      | [] => [[c]]
      | seg :: rest => (c :: seg) :: rest

/-- Model of `str::trim`: remove whitespace from both ends. -/
def trim (s : Str) : Str :=
  ((s.dropWhile Char.isWhitespace).reverse.dropWhile Char.isWhitespace).reverse

/-- Model of `str::split_whitespace().nth(0)`: the first maximal
non-whitespace run, if the string has any non-whitespace character. -/
def firstToken (s : Str) : Option Str :=
  let t := s.dropWhile Char.isWhitespace
  if t.isEmpty then none else some (t.takeWhile (fun c => !c.isWhitespace))

/-- Strip a single trailing carriage return, as `str::lines` does for each
line that was terminated by a newline. -/
def rstripCR (l : Str) : Str :=
  if l.getLast? = some '\r' then l.dropLast else l

/-- Model of `str::lines`: split on newline characters, dropping the final
empty segment produced by a trailing newline, and stripping one carriage
return from every segment that was followed by a newline. -/
def rustLines (s : Str) : List Str :=
  let parts := splitOnChar '\n' s
  (parts.dropLast.map rstripCR) ++
    (match parts.getLast? with
      | some [] => []
      | some l => [l]
      | none => [])

/-- Fueled worker for `removeAll`; the fuel is an upper bound on the number
of characters consumed, so `fuel = s.length` always suffices. -/
def removeAllFuel (pat : Str) : Nat → Str → Str
  | 0, s => s
  | _ + 1, [] => []
  | n + 1, c :: t =>
    if !pat.isEmpty && pat.isPrefixOf (c :: t) then
      removeAllFuel pat n ((c :: t).drop pat.length)
    else c :: removeAllFuel pat n t

/-- Model of `str::replace(pat, "")`: remove every (leftmost,
non-overlapping) occurrence of a non-empty pattern. -/
def removeAll (pat s : Str) : Str := removeAllFuel pat s.length s

/-- Decimal value of a digit string, most significant digit first; this is
what `str::parse` computes on a string of ASCII digits. -/
def digitsVal (s : Str) : Nat :=
  s.foldl (fun a c => 10 * a + (c.toNat - 48)) 0

/-- Fueled little-endian decimal digits of a positive number; `fuel = n`
always suffices since the argument at least halves every step. -/
def decRepAux : Nat → Nat → Str
  | 0, _ => []
  | fuel + 1, n =>
    if n = 0 then [] else Nat.digitChar (n % 10) :: decRepAux fuel (n / 10)

/-- Canonical decimal representation of a natural number (no sign, no
leading zeros except for the single digit of zero itself). -/
def decRep (n : Nat) : Str :=
  if n = 0 then ['0'] else (decRepAux n n).reverse

/-- Model of `parse_version_number`: take the leading run of ASCII digits
and parse it as a Rust `c_int` (`i32`); the parse fails when there are no
leading digits or the value exceeds `i32::MAX` (the parsed values are never
negative, so only the upper bound matters). -/
def parse_version_number (number : Str) : Option Int :=
  let digits := number.takeWhile Char.isDigit
  if digits.isEmpty then none
  else if digitsVal digits ≤ 2147483647 then some (Int.ofNat (digitsVal digits))
  else none

/-- The `CXVersion` struct from the crate's FFI declarations: three `c_int`
version components. -/
structure CXVersion where
  Major : Int
  Minor : Int
  Subminor : Int
deriving DecidableEq, Repr

/-- The literal marker searched for by `parse_version`. -/
def versionSpace : Str := ("version ").toList

/-- Pure core of `parse_version`, applied to the captured `stdout` text:
find `"version "`, take the next whitespace-delimited token, split it on
`'.'`, and parse major (required), minor (required) and subminor
(defaulting to 0). -/
def parse_version_output (output : Str) : Option CXVersion :=
  match findSub versionSpace output with
  | none => none
  | some i =>
    match firstToken (output.drop (i + 8)) with
    | none => none
    | some tok =>
      let numbers := splitOnChar '.' tok
      match numbers[0]?.bind parse_version_number with
      | none => none
      | some major =>
        match numbers[1]?.bind parse_version_number with
        | none => none
        | some minor =>
          some ⟨major, minor, (numbers[2]?.bind parse_version_number).getD 0⟩

/-- The start sentinel of the search-path block. -/
def include_start : Str := ("#include <...> search starts here:").toList

/-- The end sentinel of the search-path block. -/
def endOfSearchList : Str := ("End of search list.").toList

/-- The framework annotation removed from search-path lines. -/
def fdAnnot : Str := ("(framework directory)").toList

/-- Pure core of `parse_search_paths`, applied to the captured `stderr`
text.  `none` models a panic: either `expect` firing because a sentinel is
missing, or the slice `output[start..end]` panicking because the end index
precedes the start index.  On success the text strictly between the
sentinels has every `"(framework directory)"` removed, is split into
lines, empty lines are discarded, and each remaining line is trimmed. -/
def parse_search_paths_output (output : Str) : Option (List Str) :=
  match findSub include_start output, findSub endOfSearchList output with
  | some s, some e =>
    if s + include_start.length ≤ e then
      let region := (output.take e).drop (s + include_start.length)
      some (((rustLines (removeAll fdAnnot region)).filter
        (fun l => !l.isEmpty)).map trim)
    else none
  | _, _ => none

/-- Fueled glob matcher covering exactly the pattern syntax the program
uses: literal characters, the character class `[0-9]`, and `*` matching any
character sequence (directory entries contain no separators).  The fuel is
an upper bound on the total pattern-plus-string length consumed, so
`fuel = p.length + s.length + 1` always suffices. -/
def globMatchFuel : Nat → Str → Str → Bool
  | 0, _, _ => false
  | n + 1, p, s =>
    match p, s with
    | [], [] => true
    | [], _ :: _ => false
    | '*' :: ps, [] => globMatchFuel n ps []
    | '*' :: ps, c :: t =>
      globMatchFuel n ps (c :: t) || globMatchFuel n ('*' :: ps) t
    | '[' :: lo :: '-' :: hi :: ']' :: ps, c :: t =>
      (decide (lo ≤ c) && decide (c ≤ hi)) && globMatchFuel n ps t
    | _ :: _, [] => false
    | pc :: ps, c :: t => (pc == c) && globMatchFuel n ps t

/-- Whether a directory entry matches a glob pattern. -/
def globMatch (p s : Str) : Bool := globMatchFuel (p.length + s.length + 1) p s

/-- A filesystem snapshot: every directory path is mapped to the list of
its entries, in the (sorted) order the `glob` crate enumerates them. -/
abbrev FS := Str → List Str

/-- Model of `Path::join` for the paths the program builds (a directory
joined with a plain file name). -/
def pathJoin (d f : Str) : Str := d ++ '/' :: f

/-- The unversioned executable name: `clang` plus the platform suffix. -/
def defaultPat (sfx : Str) : Str := ("clang").toList ++ sfx

/-- The versioned executable glob: `clang-[0-9]*` plus the platform
suffix. -/
def versionedPat (sfx : Str) : Str := ("clang-[0-9]*").toList ++ sfx

/-- The pattern list built by `Clang::find`, unversioned first. -/
def clangPatterns (sfx : Str) : List Str := [defaultPat sfx, versionedPat sfx]

/-- Model of the free function `find(directory, patterns)`: for each
pattern in order, glob it against the directory and return the first
match, joined to the directory. -/
def find (fs : FS) (directory : Str) (patterns : List Str) : Option Str :=
  match patterns with
  | [] => none
  | pat :: rest =>
    match (fs directory).filter (fun f => globMatch pat f) with
    | [] => find fs directory rest
    | f :: _ => some (pathJoin directory f)

/-- Subprocess capability: executable and arguments to captured
`(stdout, stderr)`, or `none` when the process cannot be launched. -/
abbrev Runner := Str → List Str → Option (Str × Str)

/-- Model of `run_clang` before its `unwrap`: the raw runner result, whose
`none` case makes the caller panic. -/
def run_clang (r : Runner) (path : Str) (args : List Str) : Option (Str × Str) :=
  r path args

/-- Model of `parse_version(path)`: `none` is the panic of `run_clang`'s
`unwrap` on a launch failure; otherwise the inner option is the parse
result on the captured `stdout`. -/
def parse_version (r : Runner) (path : Str) : Option (Option CXVersion) :=
  (run_clang r path [("--version").toList]).map (fun o => parse_version_output o.1)

/-- The argument list of a search-path query for one language. -/
def searchArgs (language : Str) : List Str :=
  [("-E").toList, ("-x").toList, language, ("-").toList, ("-v").toList]

/-- Model of `parse_search_paths(path, language)`: `none` is a panic,
either `run_clang`'s `unwrap` on a launch failure or a sentinel failure in
the captured `stderr`. -/
def parse_search_paths (r : Runner) (path : Str) (language : Str) :
    Option (List Str) :=
  (run_clang r path (searchArgs language)).bind
    (fun o => parse_search_paths_output o.2)

/-- The `Clang` struct: resolved path, optional parsed version, and the
per-language search paths. -/
structure Clang where
  path : Str
  version : Option CXVersion
  c_search_paths : List Str
  cpp_search_paths : List Str
  objc_search_paths : List Str
deriving DecidableEq, Repr

/-- Model of `Clang::new`: build the descriptor by querying the candidate
for its version and for the search paths of `"c"`, `"c++"`, and — as the
source does for the Objective-C field as well — `"c++"` again.  `none`
models a panic inside any of the four queries. -/
def Clang.new (r : Runner) (path : Str) : Option Clang :=
  match parse_version r path with
  | none => none
  | some version =>
    match parse_search_paths r path (("c").toList) with
    | none => none
    | some c_search_paths =>
      match parse_search_paths r path (("c++").toList) with
      | none => none
      | some cpp_search_paths =>
        match parse_search_paths r path (("c++").toList) with
        | none => none
        | some objc_search_paths =>
          some ⟨path, version, c_search_paths, cpp_search_paths,
            objc_search_paths⟩

/-- The environment variables `Clang::find` reads.  `PATH` is modelled
already split into a directory list (the source calls
`env::split_paths` on it and assumes it is set). -/
structure Env where
  clang_path : Option Str
  llvm_config_path : Option Str
  path_dirs : List Str

/-- Everything ambient that `Clang::find` consults: environment,
filesystem snapshot, subprocess capability, the compile-time
`target_os = "macos"` flag, and the platform executable suffix. -/
structure Config where
  env : Env
  fs : FS
  run : Runner
  macos : Bool
  exe_suffix : Str

/-- Model of `run_llvm_config`: run the helper named by
`LLVM_CONFIG_PATH` (default `llvm-config`) and keep its `stdout`. -/
def run_llvm_config (cfg : Config) (args : List Str) : Option Str :=
  (cfg.run (cfg.env.llvm_config_path.getD (("llvm-config").toList)) args).map
    (fun o => o.1)

/-- The candidate directory list `Clang::find` accumulates when the
override variable is not set: hint path, `llvm-config --bindir` output,
`xcodebuild -find clang` output on macOS, then every `PATH` directory. -/
def candidatePaths (cfg : Config) (hint : Option Str) : List Str :=
  (match hint with | some h => [h] | none => []) ++
  (match run_llvm_config cfg [("--bindir").toList] with
    | some o => [o]
    | none => []) ++
  (if cfg.macos then
    match cfg.run (("xcodebuild").toList)
        [("-find").toList, ("clang").toList] with
    | some o => [o.1]
    | none => []
  else []) ++
  cfg.env.path_dirs

/-- The candidate loop of `Clang::find`: the first directory on which
`find` yields a match ends the search with that match. -/
def searchDirs (fs : FS) (dirs : List Str) (patterns : List Str) : Option Str :=
  match dirs with
  | [] => none
  | d :: rest =>
    match find fs d patterns with
    | some p => some p
    | none => searchDirs fs rest patterns

/-- Model of `Clang::find`: honor the `CLANG_PATH` override verbatim,
otherwise search the candidate directories with the two patterns.  The
outer option models a panic inside `Clang::new`; the inner option is the
function's own `Option<Clang>` result. -/
def Clang.find (cfg : Config) (hint : Option Str) : Option (Option Clang) :=
  match cfg.env.clang_path with
  | some p => (Clang.new cfg.run p).map some
  | none =>
    match searchDirs cfg.fs (candidatePaths cfg hint)
        (clangPatterns cfg.exe_suffix) with
    | some p => (Clang.new cfg.run p).map some
    | none => some none

/-! ### Concrete fixtures used by witnesses and counterexamples -/

/-- The text strictly between the sentinels of the spec's synthetic
diagnostic block. -/
def synthMid : Str :=
  ("\n /usr/include/foo\n /usr/local/include (framework directory)\n").toList

/-- The spec's synthetic diagnostic block. -/
def synthDiag : Str := include_start ++ synthMid ++ endOfSearchList

/-- A diagnostic text containing both sentinels, but with the end sentinel
before the start sentinel. -/
def misorderedDiag : Str := endOfSearchList ++ include_start

/-- Whether a string is empty or starts with a non-digit character. -/
def headNotDigit : Str → Bool
  | [] => true
  | c :: _ => !c.isDigit

/-- Whether a string is empty or starts with a whitespace character. -/
def headIsWhitespace : Str → Bool
  | [] => true
  | c :: _ => c.isWhitespace

/-- A banner whose version token has three decimal segments, the first of
which exceeds `i32::MAX`. -/
def overflowBanner : Str := ("clang version 2147483648.1.1").toList

/-- A banner whose version token has two decimal segments, the first of
which exceeds `i32::MAX`. -/
def overflowBanner2 : Str := ("clang version 2147483648.0").toList

/-- A filesystem with a versioned match in `/a`, both kinds of match in
`/b`, and nothing anywhere else. -/
def fsW5 : FS := fun d =>
  if d = ("/a").toList then [("clang-9").toList]
  else if d = ("/b").toList then [("clang").toList, ("clang-7").toList]
  else []

/-- A configuration with no override, no helper, an empty `PATH` directory
and a runner that can launch nothing. -/
def cfgW5 : Config :=
  ⟨⟨none, none, [("/c").toList]⟩, fsW5, fun _ _ => none, false, []⟩

/-- A runner whose every invocation reports a fixed version banner on
`stdout` and a fixed search-path diagnostic block on `stderr`. -/
def runW6 : Runner := fun _ _ =>
  some ((("clang version 3.8.0").toList),
    (("#include <...> search starts here:\n /usr/include\nEnd of search list.\n").toList))

/-- A configuration whose override variable is set. -/
def cfgW6 : Config :=
  ⟨⟨some (("/override/clang").toList), none, [("/p").toList]⟩,
    (fun _ => []), runW6, false, []⟩

/-- A runner identical in behavior to `runW6`, for the launchability
witness. -/
def runW7 : Runner := fun _ _ =>
  some ((("clang version 3.8.0").toList),
    (("#include <...> search starts here:\n /usr/include\nEnd of search list.\n").toList))

/-- A configuration resolving through the override to a launchable
executable. -/
def cfgW7 : Config :=
  ⟨⟨some (("/usr/bin/clang").toList), none, []⟩, (fun _ => []), runW7, false, []⟩

/-- The descriptor `cfgW7` resolves to. -/
def cW7 : Clang :=
  ⟨("/usr/bin/clang").toList, some ⟨3, 8, 0⟩, [("/usr/include").toList],
    [("/usr/include").toList], [("/usr/include").toList]⟩

/-- A runner identical in behavior to `runW6`, for the Objective-C
field witness. -/
def runW8 : Runner := fun _ _ =>
  some ((("clang version 3.8.0").toList),
    (("#include <...> search starts here:\n /usr/include\nEnd of search list.\n").toList))

/-- A candidate path for the Objective-C field witness. -/
def pW8 : Str := ("/opt/clang").toList

/-- The descriptor `Clang.new runW8 pW8` produces. -/
def cW8 : Clang :=
  ⟨pW8, some ⟨3, 8, 0⟩, [("/usr/include").toList],
    [("/usr/include").toList], [("/usr/include").toList]⟩

/-- A configuration used twice for the determinism witness. -/
def cfgW9 : Config :=
  ⟨⟨none, none, [("/a").toList]⟩,
    (fun d => if d = ("/a").toList then [("clang").toList] else []),
    (fun _ _ => some ((("clang version 7.1").toList),
      (("#include <...> search starts here:\nEnd of search list.\n").toList))),
    false, []⟩

/-- A configuration whose runner can launch nothing but whose `PATH`
contains a matching candidate. -/
def cfgW10 : Config :=
  ⟨⟨none, none, [("/a").toList]⟩,
    (fun d => if d = ("/a").toList then [("clang").toList] else []),
    (fun _ _ => none), false, []⟩

/-- The candidate `cfgW10`'s search selects. -/
def pW10 : Str := pathJoin (("/a").toList) (("clang").toList)

/-! ### Helper lemmas about the text model -/

theorem takeWhile_append_left (p : Char → Bool) (a b : Str)
    (ha : ∀ c ∈ a, p c = true)
    (hb : ∀ c t, b = c :: t → p c = false) :
    (a ++ b).takeWhile p = a := by
  induction a with
  | nil =>
    cases b with
    | nil => rfl
    | cons c t => simp [List.takeWhile, hb c t rfl]
  | cons c a ih =>
    have hc : p c = true := ha c (List.mem_cons_self c a)
    simp only [List.cons_append, List.takeWhile, hc, List.append_eq]
    rw [ih (fun x hx => ha x (List.mem_cons_of_mem c hx))]

theorem firstToken_decomp (tok rest : Str)
    (hne : tok ≠ [])
    (hws : ∀ c ∈ tok, c.isWhitespace = false)
    (hrest : ∀ c t, rest = c :: t → c.isWhitespace = true) :
    firstToken (tok ++ rest) = some tok := by
  cases tok with
  | nil => exact absurd rfl hne
  | cons c t =>
    have hc : c.isWhitespace = false := hws c (List.mem_cons_self c t)
    simp only [firstToken, List.cons_append, List.dropWhile, hc,
      List.isEmpty_cons, if_false]
    have htw : ((c :: t) ++ rest).takeWhile (fun x => !x.isWhitespace)
        = c :: t := by
      refine takeWhile_append_left _ _ _ (fun x hx => ?_) (fun x xs hxs => ?_)
      · simp [hws x hx]
      · simp [hrest x xs hxs]
    simpa using htw

theorem splitOnChar_append_sep (sep : Char) (a b : Str) (ha : sep ∉ a) :
    splitOnChar sep (a ++ sep :: b) = a :: splitOnChar sep b := by
  induction a with
  | nil => simp [splitOnChar]
  | cons c t ih =>
    have hc : ¬ c = sep := fun h => ha (h ▸ List.mem_cons_self c t)
    have hrec := ih (fun h => ha (List.mem_cons_of_mem c h))
    simp only [List.cons_append, splitOnChar, if_neg hc, List.append_eq, hrec]

theorem splitOnChar_no_sep (sep : Char) (a : Str) (ha : sep ∉ a) :
    splitOnChar sep a = [a] := by
  induction a with
  | nil => rfl
  | cons c t ih =>
    have hc : ¬ c = sep := fun h => ha (h ▸ List.mem_cons_self c t)
    have hrec := ih (fun h => ha (List.mem_cons_of_mem c h))
    simp only [splitOnChar, if_neg hc, hrec]

theorem digitsVal_append_digit (l : Str) (c : Char) :
    digitsVal (l ++ [c]) = 10 * digitsVal l + (c.toNat - 48) := by
  simp [digitsVal, List.foldl_append]

theorem digitChar_toNat (k : Nat) (hk : k < 10) :
    (Nat.digitChar k).toNat = 48 + k := by
  interval_cases k <;> rfl

theorem digitChar_isDigit (k : Nat) (hk : k < 10) :
    (Nat.digitChar k).isDigit = true := by
  interval_cases k <;> rfl

theorem decRepAux_val (fuel : Nat) :
    ∀ n, n ≤ fuel → digitsVal (decRepAux fuel n).reverse = n := by
  induction fuel with
  | zero =>
    intro n hn
    have : n = 0 := Nat.le_zero.1 hn
    subst this
    rfl
  | succ f ih =>
    intro n hn
    by_cases h0 : n = 0
    · subst h0; rfl
    · have hdiv : n / 10 ≤ f := by
        have := Nat.div_lt_self (Nat.pos_of_ne_zero h0)
          (show 1 < 10 by norm_num)
        omega
      simp only [decRepAux, if_neg h0, List.reverse_cons,
        digitsVal_append_digit, ih (n / 10) hdiv,
        digitChar_toNat (n % 10) (Nat.mod_lt n (by norm_num))]
      omega

theorem decRep_val (n : Nat) : digitsVal (decRep n) = n := by
  unfold decRep
  split
  · next h => subst h; rfl
  · exact decRepAux_val n n le_rfl

theorem decRepAux_digits (fuel : Nat) :
    ∀ n c, c ∈ decRepAux fuel n → c.isDigit = true := by
  induction fuel with
  | zero => intro n c hc; simp [decRepAux] at hc
  | succ f ih =>
    intro n c hc
    by_cases h0 : n = 0
    · subst h0; simp [decRepAux] at hc
    · simp only [decRepAux, if_neg h0, List.mem_cons] at hc
      rcases hc with h | h
      · subst h
        exact digitChar_isDigit (n % 10) (Nat.mod_lt n (by norm_num))
      · exact ih (n / 10) c h

theorem decRep_digits (n : Nat) : ∀ c ∈ decRep n, c.isDigit = true := by
  unfold decRep
  split
  · intro c hc
    simp only [List.mem_singleton] at hc
    subst hc
    rfl
  · intro c hc
    exact decRepAux_digits n n c (List.mem_reverse.1 hc)

theorem decRep_ne_nil (n : Nat) : decRep n ≠ [] := by
  unfold decRep
  split
  · simp
  · next h =>
    intro hrev
    rw [List.reverse_eq_nil_iff] at hrev
    cases n with
    | zero => exact h rfl
    | succ m =>
      simp only [decRepAux, if_neg h] at hrev
      exact List.cons_ne_nil _ _ hrev

theorem decRep_no_dot (n : Nat) : ('.' : Char) ∉ decRep n := by
  intro h
  exact absurd (decRep_digits n '.' h) (by decide)

theorem parse_version_number_decRep (v : Nat) (suf : Str)
    (hv : v ≤ 2147483647)
    (hsuf : ∀ c t, suf = c :: t → c.isDigit = false) :
    parse_version_number (decRep v ++ suf) = some (Int.ofNat v) := by
  unfold parse_version_number
  rw [takeWhile_append_left Char.isDigit (decRep v) suf (decRep_digits v) hsuf]
  have hne : (decRep v).isEmpty = false := by
    cases hd : decRep v with
    | nil => exact absurd hd (decRep_ne_nil v)
    | cons c t => rfl
  simp [hne, decRep_val, hv]

theorem take_drop_extract (a b c : List Char) :
    ((a ++ b ++ c).take (a.length + b.length)).drop a.length = b := by
  have h1 : (a ++ b ++ c).take (a.length + b.length) = a ++ b := by
    rw [← List.length_append]
    exact List.take_left (a ++ b) c
  rw [h1]
  exact List.drop_left a b

/-! ### Helper lemmas about the resolver model -/

theorem Clang.new_some (r : Runner) (p : Str) (c : Clang)
    (h : Clang.new r p = some c) :
    c.path = p ∧
    (∃ o, r p [("--version").toList] = some o ∧
      c.version = parse_version_output o.1) ∧
    (∃ o, r p (searchArgs (("c").toList)) = some o ∧
      parse_search_paths_output o.2 = some c.c_search_paths) ∧
    (∃ o, r p (searchArgs (("c++").toList)) = some o ∧
      parse_search_paths_output o.2 = some c.cpp_search_paths ∧
      parse_search_paths_output o.2 = some c.objc_search_paths) := by
  unfold Clang.new at h
  split at h
  · exact Option.noConfusion h
  · next version hv =>
    split at h
    · exact Option.noConfusion h
    · next csp hc =>
      split at h
      · exact Option.noConfusion h
      · next cpp hcpp =>
        split at h
        · next heq => exact Option.noConfusion heq
        · next objc heq =>
          obtain rfl := Option.some_injective _ heq
          obtain rfl := Option.some_injective _ h
          unfold parse_version run_clang at hv
          unfold parse_search_paths run_clang at hc hcpp
          obtain ⟨vo, hvo, hvf⟩ := Option.map_eq_some'.1 hv
          obtain ⟨co, hco, hcf⟩ := Option.bind_eq_some.1 hc
          obtain ⟨po, hpo, hpf⟩ := Option.bind_eq_some.1 hcpp
          exact ⟨rfl, ⟨vo, hvo, hvf.symm⟩, ⟨co, hco, hcf⟩, ⟨po, hpo, hpf, hpf⟩⟩

theorem searchDirs_eq_none (fs : FS) (dirs patterns : List Str)
    (h : ∀ d ∈ dirs, find fs d patterns = none) :
    searchDirs fs dirs patterns = none := by
  induction dirs with
  | nil => rfl
  | cons d rest ih =>
    simp only [searchDirs, h d (List.mem_cons_self d rest)]
    exact ih (fun x hx => h x (List.mem_cons_of_mem d hx))

theorem headNotDigit_spec (l : Str) (h : headNotDigit l = true) :
    ∀ c t, l = c :: t → c.isDigit = false := by
  intro c t hl
  subst hl
  simpa [headNotDigit] using h

theorem headIsWhitespace_spec (l : Str) (h : headIsWhitespace l = true) :
    ∀ c t, l = c :: t → c.isWhitespace = true := by
  intro c t hl
  subst hl
  simpa [headIsWhitespace] using h

theorem parse_version_output_eq (output : Str) (i : Nat) (tok : Str)
    (maj mnr : Int)
    (h1 : findSub versionSpace output = some i)
    (h2 : firstToken (output.drop (i + 8)) = some tok)
    (h3 : (splitOnChar '.' tok)[0]?.bind parse_version_number = some maj)
    (h4 : (splitOnChar '.' tok)[1]?.bind parse_version_number = some mnr) :
    parse_version_output output =
      some ⟨maj, mnr,
        ((splitOnChar '.' tok)[2]?.bind parse_version_number).getD 0⟩ := by
  unfold parse_version_output
  rw [h1]
  simp [h2, h3, h4]

theorem parse_search_paths_output_eq (output : Str) (s e : Nat)
    (hs : findSub include_start output = some s)
    (he : findSub endOfSearchList output = some e)
    (hle : s + include_start.length ≤ e) :
    parse_search_paths_output output =
      some (((rustLines (removeAll fdAnnot
        ((output.take e).drop (s + include_start.length)))).filter
        (fun l => !l.isEmpty)).map trim) := by
  unfold parse_search_paths_output
  rw [hs, he]
  simp [hle]

/-! ### Claim theorems -/

/-- C1: for every diagnostic text in which the start sentinel first occurs
at the end of `pre` and the end sentinel first occurs right after `mid`,
search-path parsing succeeds and returns exactly the result of processing
the text `mid` strictly between the sentinels: every occurrence of
`"(framework directory)"` removed, the text split into lines, empty lines
discarded, each remaining line trimmed of surrounding whitespace, with
duplicates and order preserved (the processing is a `map`/`filter` over
the line list, which reorders and deduplicates nothing). -/
theorem search_paths_between_sentinels
    (output pre mid post : Str)
    (hout : output = pre ++ include_start ++ mid ++ endOfSearchList ++ post)
    (hstart : findSub include_start output = some pre.length)
    (hend : findSub endOfSearchList output
      = some (pre.length + include_start.length + mid.length)) :
    parse_search_paths_output output =
      some (((rustLines (removeAll fdAnnot mid)).filter
        (fun l => !l.isEmpty)).map trim) := by
  have hle : pre.length + include_start.length ≤
      pre.length + include_start.length + mid.length := Nat.le_add_right _ _
  have h := parse_search_paths_output_eq output (pre.length)
    (pre.length + include_start.length + mid.length) hstart hend hle
  rw [h]
  have hregion : ((output.take
      (pre.length + include_start.length + mid.length)).drop
      (pre.length + include_start.length)) = mid := by
    subst hout
    have h2 := take_drop_extract (pre ++ include_start) mid
      (endOfSearchList ++ post)
    simpa [List.append_assoc, List.length_append, Nat.add_assoc] using h2
  rw [hregion]

/-- C1 witness: the spec's synthetic diagnostic block yields exactly
`["/usr/include/foo", "/usr/local/include"]`, in that order, with the
framework annotation stripped. -/
theorem search_paths_between_sentinels_witness :
    parse_search_paths_output synthDiag =
      some [("/usr/include/foo").toList, ("/usr/local/include").toList] := by
  have h := search_paths_between_sentinels synthDiag [] synthMid []
    (by simp [synthDiag]) (by decide) (by decide)
  rw [h]
  decide

/-- C4 counterexample: a diagnostic text that contains both sentinels (so
the claim says parsing must not fail) but on which parsing nevertheless
fails, because the end sentinel precedes the start sentinel and the slice
of the text between them panics. -/
theorem search_paths_misordered_sentinels :
    parse_search_paths_output misorderedDiag = none ∧
    (findSub include_start misorderedDiag).isSome = true ∧
    (findSub endOfSearchList misorderedDiag).isSome = true := by decide

/-- C4 amended: search-path parsing fails (panics) exactly when the start
sentinel is absent, the end sentinel is absent, or both are present but
the first occurrence of the end sentinel begins before the end of the
first occurrence of the start sentinel; in particular it fails (rather
than returning an empty sequence) whenever either sentinel is missing. -/
theorem search_paths_failure_iff (output : Str) :
    parse_search_paths_output output = none ↔
      findSub include_start output = none ∨
      findSub endOfSearchList output = none ∨
      (∃ s e, findSub include_start output = some s ∧
        findSub endOfSearchList output = some e ∧
        e < s + include_start.length) := by
  unfold parse_search_paths_output
  cases h1 : findSub include_start output with
  | none => simp
  | some s =>
    cases h2 : findSub endOfSearchList output with
    | none => simp
    | some e =>
      by_cases hle : s + include_start.length ≤ e
      · simp [hle]
      · simp [hle]
        omega

/-- C4 witness: instantiating the failure characterization on a text with
no start sentinel shows the parse panics there. -/
theorem search_paths_failure_iff_witness :
    parse_search_paths_output endOfSearchList = none :=
  (search_paths_failure_iff endOfSearchList).2 (Or.inl (by decide))

/-- C2 counterexample: a banner containing `"version "` followed by the
whitespace-delimited token `2147483648.1.1`, whose segments are plain
decimal numbers, on which version parsing returns `None` instead of
`{major 2147483648, minor 1, subminor 1}`: the major value exceeds
`i32::MAX`, so the `c_int` parse of the leading digit run fails. -/
theorem version_parse_overflow :
    parse_version_output overflowBanner = none ∧
    findSub versionSpace overflowBanner = some 6 ∧
    firstToken (overflowBanner.drop (6 + 8))
      = some (("2147483648.1.1").toList) := by decide

/-- C2 amended: for every banner string whose first occurrence of
`"version "` (ending at index `i + 8`) is followed by a whitespace-delimited
token whose first three `'.'`-separated segments start with the decimal
digit runs of `M`, `m` and `s` respectively — each digit run followed by a
dot-free suffix with no leading digit, and any fields beyond the third
segment ignored — version parsing returns exactly
`{major M, minor m, subminor s}`, provided each of `M`, `m`, `s` is at
most 2147483647 (`i32::MAX`, beyond which the segment parse fails). -/
theorem parse_version_structured
    (output rest tail suf0 suf1 suf2 tok seg0 seg1 seg2 : Str)
    (i M m s : Nat)
    (hfind : findSub versionSpace output = some i)
    (hseg0 : seg0 = decRep M ++ suf0)
    (hseg1 : seg1 = decRep m ++ suf1)
    (hseg2 : seg2 = decRep s ++ suf2)
    (htok : tok = seg0 ++ '.' :: (seg1 ++ '.' :: (seg2 ++ tail)))
    (hdrop : output.drop (i + 8) = tok ++ rest)
    (hws : tok.all (fun c => !c.isWhitespace) = true)
    (htail : tail = [] ∨ ∃ t, tail = '.' :: t)
    (hrest : headIsWhitespace rest = true)
    (hsuf0 : headNotDigit suf0 = true)
    (hsuf1 : headNotDigit suf1 = true)
    (hsuf2 : headNotDigit suf2 = true)
    (hdot0 : ('.' : Char) ∉ suf0)
    (hdot1 : ('.' : Char) ∉ suf1)
    (hdot2 : ('.' : Char) ∉ suf2)
    (hM : M ≤ 2147483647) (hm : m ≤ 2147483647) (hs : s ≤ 2147483647) :
    parse_version_output output
      = some ⟨Int.ofNat M, Int.ofNat m, Int.ofNat s⟩ := by
  have hd0 : ('.' : Char) ∉ seg0 := by
    rw [hseg0]
    intro hmem
    rcases List.mem_append.1 hmem with h | h
    · exact absurd (decRep_digits M '.' h) (by decide)
    · exact hdot0 h
  have hd1 : ('.' : Char) ∉ seg1 := by
    rw [hseg1]
    intro hmem
    rcases List.mem_append.1 hmem with h | h
    · exact absurd (decRep_digits m '.' h) (by decide)
    · exact hdot1 h
  have hd2 : ('.' : Char) ∉ seg2 := by
    rw [hseg2]
    intro hmem
    rcases List.mem_append.1 hmem with h | h
    · exact absurd (decRep_digits s '.' h) (by decide)
    · exact hdot2 h
  have htokne : tok ≠ [] := by
    rw [htok]
    intro h
    rcases List.append_eq_nil.1 h with ⟨-, h2⟩
    exact List.cons_ne_nil _ _ h2
  have hft : firstToken (output.drop (i + 8)) = some tok := by
    rw [hdrop]
    refine firstToken_decomp tok rest htokne (fun c hc => ?_)
      (headIsWhitespace_spec rest hrest)
    have := List.all_eq_true.1 hws c hc
    simpa using this
  have hthird : ∃ restSegs, splitOnChar '.' (seg2 ++ tail)
      = seg2 :: restSegs := by
    rcases htail with rfl | ⟨t, rfl⟩
    · rw [List.append_nil]
      exact ⟨[], splitOnChar_no_sep '.' seg2 hd2⟩
    · exact ⟨splitOnChar '.' t, splitOnChar_append_sep '.' seg2 t hd2⟩
  obtain ⟨restSegs, hthird⟩ := hthird
  have hsplit : splitOnChar '.' tok = seg0 :: seg1 :: seg2 :: restSegs := by
    rw [htok, splitOnChar_append_sep '.' seg0 _ hd0,
      splitOnChar_append_sep '.' seg1 _ hd1, hthird]
  have hnum0 : parse_version_number seg0 = some (Int.ofNat M) := by
    rw [hseg0]
    exact parse_version_number_decRep M suf0 hM (headNotDigit_spec suf0 hsuf0)
  have hnum1 : parse_version_number seg1 = some (Int.ofNat m) := by
    rw [hseg1]
    exact parse_version_number_decRep m suf1 hm (headNotDigit_spec suf1 hsuf1)
  have hnum2 : parse_version_number seg2 = some (Int.ofNat s) := by
    rw [hseg2]
    exact parse_version_number_decRep s suf2 hs (headNotDigit_spec suf2 hsuf2)
  have h := parse_version_output_eq output i tok (Int.ofNat M) (Int.ofNat m)
    hfind hft
    (by rw [hsplit]; simpa using hnum0)
    (by rw [hsplit]; simpa using hnum1)
  rw [h, hsplit]
  simp [hnum2]

/-- C2 witness: the spec's example banner
`"clang version 3.8.0 (tags/RELEASE_380/final)"` parses to `{3, 8, 0}`. -/
theorem parse_version_structured_witness :
    parse_version_output
        (("clang version 3.8.0 (tags/RELEASE_380/final)").toList)
      = some ⟨3, 8, 0⟩ :=
  parse_version_structured
    (("clang version 3.8.0 (tags/RELEASE_380/final)").toList)
    ((" (tags/RELEASE_380/final)").toList) [] [] [] []
    (("3.8.0").toList) (("3").toList) (("8").toList) (("0").toList)
    6 3 8 0
    (by decide) (by decide) (by decide) (by decide) (by decide) (by decide)
    (by decide) (Or.inl rfl) (by decide) (by decide) (by decide) (by decide)
    (by decide) (by decide) (by decide) (by decide) (by decide) (by decide)

/-- C3 counterexample: `"clang version 2147483648.0"` makes version
parsing return `None` even though the banner contains `"version "`, the
first `'.'`-separated segment of the following token has a leading run of
decimal digits, and the second segment is present with leading decimal
digits — so none of the claim's listed failure conditions holds. -/
theorem version_parse_none_beyond_claimed :
    parse_version_output overflowBanner2 = none ∧
    findSub versionSpace overflowBanner2 = some 6 ∧
    firstToken (overflowBanner2.drop (6 + 8))
      = some (("2147483648.0").toList) ∧
    ((("2147483648.0").toList).takeWhile Char.isDigit).isEmpty = false ∧
    (splitOnChar '.' (("2147483648.0").toList))[1]? = some (("0").toList) ∧
    ((("0").toList).takeWhile Char.isDigit).isEmpty = false := by decide

/-- C3 amended: version parsing returns `None` exactly when the banner
lacks `"version "`, or no token follows it, or the required first or
second `'.'`-separated segment fails to parse — where a segment parse
fails exactly when its leading run of decimal digits is empty or its value
exceeds 2147483647 (`i32::MAX`); a missing or unparsable third segment
does not fail the parse but yields subminor 0. -/
theorem version_parse_none_characterization :
    (∀ output : Str, parse_version_output output = none ↔
      (findSub versionSpace output = none ∨
        ∃ i, findSub versionSpace output = some i ∧
          (firstToken (output.drop (i + 8)) = none ∨
            ∃ tok, firstToken (output.drop (i + 8)) = some tok ∧
              ((splitOnChar '.' tok)[0]?.bind parse_version_number = none ∨
                (splitOnChar '.' tok)[1]?.bind parse_version_number
                  = none)))) ∧
    (∀ seg : Str, parse_version_number seg = none ↔
      (seg.takeWhile Char.isDigit = [] ∨
        2147483647 < digitsVal (seg.takeWhile Char.isDigit))) ∧
    (∀ (output : Str) (i : Nat) (tok : Str) (maj mnr : Int),
      findSub versionSpace output = some i →
      firstToken (output.drop (i + 8)) = some tok →
      (splitOnChar '.' tok)[0]?.bind parse_version_number = some maj →
      (splitOnChar '.' tok)[1]?.bind parse_version_number = some mnr →
      (splitOnChar '.' tok)[2]?.bind parse_version_number = none →
      parse_version_output output = some ⟨maj, mnr, 0⟩) := by
  refine ⟨?_, ?_, ?_⟩
  · intro output
    unfold parse_version_output
    cases h1 : findSub versionSpace output with
    | none => simp
    | some i =>
      cases h2 : firstToken (output.drop (i + 8)) with
      | none => simp [h2]
      | some tok =>
        cases h3 : (splitOnChar '.' tok)[0]?.bind parse_version_number with
        | none =>
          simp [h2, h3]
          exact Or.inl (fun a ha => by rw [ha] at h3; simpa using h3)
        | some maj =>
          cases h4 : (splitOnChar '.' tok)[1]?.bind parse_version_number with
          | none =>
            simp [h2, h3, h4]
            exact Or.inr (fun a ha => by rw [ha] at h4; simpa using h4)
          | some mnr =>
            simp [h2, h3, h4]
            constructor
            · obtain ⟨x, hx, hpx⟩ := Option.bind_eq_some.1 h3
              exact ⟨x, hx, by simp [hpx]⟩
            · obtain ⟨x, hx, hpx⟩ := Option.bind_eq_some.1 h4
              exact ⟨x, hx, by simp [hpx]⟩
  · intro seg
    unfold parse_version_number
    by_cases he : (seg.takeWhile Char.isDigit).isEmpty
    · have he2 : seg.takeWhile Char.isDigit = [] := List.isEmpty_iff.1 he
      simp [he, he2]
    · have he2 : ¬ seg.takeWhile Char.isDigit = [] := by
        intro h
        exact he (by simp [h])
      by_cases hv : digitsVal (seg.takeWhile Char.isDigit) ≤ 2147483647
      · simp [he, he2, hv]
      · simp [he, he2, hv]
        omega
  · intro output i tok maj mnr h1 h2 h3 h4 h5
    have h := parse_version_output_eq output i tok maj mnr h1 h2 h3 h4
    rw [h, h5]
    rfl

/-- C3 witness: `"clang version 7.1"` parses with defaulted subminor to
`{7, 1, 0}`, and `"clang version 10svn"` fails because the minor segment
is missing. -/
theorem version_parse_none_characterization_witness :
    parse_version_output (("clang version 7.1").toList) = some ⟨7, 1, 0⟩ ∧
    parse_version_output (("clang version 10svn").toList) = none := by
  constructor
  · exact version_parse_none_characterization.2.2
      (("clang version 7.1").toList) 6 (("7.1").toList) 7 1
      (by decide) (by decide) (by decide) (by decide) (by decide)
  · exact (version_parse_none_characterization.1
        (("clang version 10svn").toList)).2
      (Or.inr ⟨6, by decide, Or.inr ⟨("10svn").toList, by decide,
        Or.inr (by decide)⟩⟩)

/-- C5: directory search order.  Within a directory the unversioned
pattern `clang` plus suffix is tested first and its first filesystem match
wins; the versioned glob `clang-[0-9]*` plus suffix is consulted only when
the unversioned pattern has no match; the first directory yielding any
match ends the whole search; and when no candidate directory matches
anything, resolution returns `None`. -/
theorem find_pattern_precedence :
    (∀ (fs : FS) (sfx d f : Str) (rest : List Str),
      (fs d).filter (fun x => globMatch (defaultPat sfx) x) = f :: rest →
      find fs d (clangPatterns sfx) = some (pathJoin d f)) ∧
    (∀ (fs : FS) (sfx d : Str),
      (fs d).filter (fun x => globMatch (defaultPat sfx) x) = [] →
      find fs d (clangPatterns sfx) =
        ((fs d).filter (fun x => globMatch (versionedPat sfx) x)).head?.map
          (pathJoin d)) ∧
    (∀ (fs : FS) (sfx d : Str) (dirs : List Str),
      find fs d (clangPatterns sfx) ≠ none →
      searchDirs fs (d :: dirs) (clangPatterns sfx)
        = find fs d (clangPatterns sfx)) ∧
    (∀ (fs : FS) (sfx : Str) (dirs : List Str),
      (∀ d ∈ dirs, find fs d (clangPatterns sfx) = none) →
      searchDirs fs dirs (clangPatterns sfx) = none) ∧
    (∀ (cfg : Config) (hint : Option Str),
      cfg.env.clang_path = none →
      (∀ d ∈ candidatePaths cfg hint,
        find cfg.fs d (clangPatterns cfg.exe_suffix) = none) →
      Clang.find cfg hint = some none) := by
  refine ⟨?_, ?_, ?_, ?_, ?_⟩
  · intro fs sfx d f rest h
    simp only [clangPatterns, find, h]
  · intro fs sfx d h
    simp only [clangPatterns, find, h]
    cases hv : (fs d).filter (fun x => globMatch (versionedPat sfx) x) with
    | nil => simp [find, hv]
    | cons f fsx => simp [find, hv]
  · intro fs sfx d dirs h
    cases hf : find fs d (clangPatterns sfx) with
    | none => exact absurd hf h
    | some p => simp [searchDirs, hf]
  · intro fs sfx dirs h
    exact searchDirs_eq_none fs dirs (clangPatterns sfx) h
  · intro cfg hint h1 h2
    have hs := searchDirs_eq_none cfg.fs (candidatePaths cfg hint)
      (clangPatterns cfg.exe_suffix) h2
    unfold Clang.find
    rw [h1, hs]

/-- C5 witness: on a concrete filesystem, `/b` (holding both `clang` and
`clang-7`) resolves to the unversioned `clang`, `/a` (holding only
`clang-9`) resolves through the versioned glob, and a configuration whose
only candidate directory has no match resolves to `None`. -/
theorem find_pattern_precedence_witness :
    find fsW5 (("/b").toList) (clangPatterns [])
      = some (pathJoin (("/b").toList) (("clang").toList)) ∧
    find fsW5 (("/a").toList) (clangPatterns [])
      = some (pathJoin (("/a").toList) (("clang-9").toList)) ∧
    Clang.find cfgW5 none = some none := by
  refine ⟨?_, ?_, ?_⟩
  · exact find_pattern_precedence.1 fsW5 [] (("/b").toList)
      (("clang").toList) [] (by decide)
  · have h := find_pattern_precedence.2.1 fsW5 [] (("/a").toList) (by decide)
    rw [h]
    decide
  · exact find_pattern_precedence.2.2.2.2 cfgW5 none rfl (by decide)

/-- C6: whenever the `CLANG_PATH` override is set, resolution returns the
result of building a descriptor from exactly that value — independently of
the filesystem, the hint path, the helper, the platform locator and the
search path, none of which appear in the result — and any descriptor so
built carries that value verbatim as its executable path. -/
theorem clang_path_override (cfg : Config) (hint : Option Str) (p : Str)
    (h : cfg.env.clang_path = some p) :
    Clang.find cfg hint = (Clang.new cfg.run p).map some ∧
    (∀ c, Clang.new cfg.run p = some c → c.path = p) := by
  constructor
  · unfold Clang.find
    rw [h]
  · intro c hc
    exact (Clang.new_some cfg.run p c hc).1

/-- C6 witness: a configuration with the override set resolves through it
to a real descriptor. -/
theorem clang_path_override_witness :
    Clang.find cfgW6 (some (("/hint").toList))
      = (Clang.new cfgW6.run (("/override/clang").toList)).map some ∧
    (Clang.new cfgW6.run (("/override/clang").toList)).isSome = true := by
  refine ⟨(clang_path_override cfgW6 (some (("/hint").toList))
    (("/override/clang").toList) rfl).1, by decide⟩

/-- C7: every descriptor actually returned by resolution has an
executable path on which every construction-time query (version, C search
paths, C++ search paths) launched successfully — under the ProcessRunner
contract, launch success is exactly the path naming an existing,
executable file at construction time.  This covers the override case as
well, since a non-launchable override makes construction panic instead of
returning a descriptor. -/
theorem resolved_path_launchable (cfg : Config) (hint : Option Str)
    (c : Clang) (h : Clang.find cfg hint = some (some c)) :
    (cfg.run c.path [("--version").toList]).isSome = true ∧
    (cfg.run c.path (searchArgs (("c").toList))).isSome = true ∧
    (cfg.run c.path (searchArgs (("c++").toList))).isSome = true := by
  have hnew : ∃ p, Clang.new cfg.run p = some c := by
    unfold Clang.find at h
    cases hcp : cfg.env.clang_path with
    | some p =>
      rw [hcp] at h
      obtain ⟨a, ha, ha2⟩ := Option.map_eq_some'.1 h
      obtain rfl := Option.some_injective _ ha2
      exact ⟨p, ha⟩
    | none =>
      rw [hcp] at h
      cases hsd : searchDirs cfg.fs (candidatePaths cfg hint)
          (clangPatterns cfg.exe_suffix) with
      | some q =>
        rw [hsd] at h
        obtain ⟨a, ha, ha2⟩ := Option.map_eq_some'.1 h
        obtain rfl := Option.some_injective _ ha2
        exact ⟨q, ha⟩
      | none =>
        rw [hsd] at h
        exact Option.noConfusion (Option.some_injective _ h)
  obtain ⟨p, hp⟩ := hnew
  obtain ⟨hpath, ⟨vo, hvo, -⟩, ⟨co, hco, -⟩, ⟨po, hpo, -⟩⟩ :=
    Clang.new_some cfg.run p c hp
  rw [hpath]
  refine ⟨?_, ?_, ?_⟩
  · rw [hvo]
    rfl
  · rw [hco]
    rfl
  · rw [hpo]
    rfl

/-- C7 witness: the override configuration `cfgW7` resolves to `cW7`, and
the theorem yields launchability of all three queries at its path. -/
theorem resolved_path_launchable_witness :
    (cfgW7.run cW7.path [("--version").toList]).isSome = true ∧
    (cfgW7.run cW7.path (searchArgs (("c").toList))).isSome = true ∧
    (cfgW7.run cW7.path (searchArgs (("c++").toList))).isSome = true :=
  resolved_path_launchable cfgW7 none cW7 (by decide)

/-- C8: every constructed descriptor populates its Objective-C search-path
field from the search-path query run with the C++ language token `"c++"`
(the same invocation that feeds the C++ field), so the two fields are
always equal — the runner is a function of executable and arguments, so
the two identical invocations necessarily produce the same diagnostic
output. -/
theorem objc_uses_cpp_query (r : Runner) (p : Str) (c : Clang)
    (h : Clang.new r p = some c) :
    c.objc_search_paths = c.cpp_search_paths ∧
    (∃ o, r p (searchArgs (("c++").toList)) = some o ∧
      parse_search_paths_output o.2 = some c.objc_search_paths) := by
  obtain ⟨-, -, -, ⟨o, ho, hcpp, hobjc⟩⟩ := Clang.new_some r p c h
  constructor
  · exact (Option.some_injective _ (hcpp.symm.trans hobjc)).symm
  · exact ⟨o, ho, hobjc⟩

/-- C8 witness: the concrete descriptor built over `runW8` has equal C++
and Objective-C search-path fields. -/
theorem objc_uses_cpp_query_witness :
    cW8.objc_search_paths = cW8.cpp_search_paths :=
  (objc_uses_cpp_query runW8 pW8 cW8 (by decide)).1

/-- C9: resolution is deterministic and side-effect-free — two calls whose
configurations agree on the environment variables, on every filesystem
answer, on every subprocess answer, on the platform flag and on the
executable suffix return equal results, and in particular any two
descriptors they return agree on path, version and all three per-language
search-path fields. -/
theorem resolve_deterministic (cfg cfg2 : Config) (hint : Option Str)
    (henv : cfg.env = cfg2.env)
    (hfs : ∀ d, cfg.fs d = cfg2.fs d)
    (hrun : ∀ e a, cfg.run e a = cfg2.run e a)
    (hmac : cfg.macos = cfg2.macos)
    (hsfx : cfg.exe_suffix = cfg2.exe_suffix) :
    Clang.find cfg hint = Clang.find cfg2 hint ∧
    (∀ c c2, Clang.find cfg hint = some (some c) →
      Clang.find cfg2 hint = some (some c2) →
      c.path = c2.path ∧ c.version = c2.version ∧
      c.c_search_paths = c2.c_search_paths ∧
      c.cpp_search_paths = c2.cpp_search_paths ∧
      c.objc_search_paths = c2.objc_search_paths) := by
  have hfs2 : cfg.fs = cfg2.fs := funext hfs
  have hrun2 : cfg.run = cfg2.run := funext (fun e => funext (fun a => hrun e a))
  have hcfg : cfg = cfg2 := by
    rw [show cfg = (⟨cfg.env, cfg.fs, cfg.run, cfg.macos, cfg.exe_suffix⟩ :
      Config) from rfl, henv, hfs2, hrun2, hmac, hsfx]
  subst hcfg
  refine ⟨rfl, ?_⟩
  intro c c2 h1 h2
  rw [h1] at h2
  obtain rfl := Option.some_injective _ (Option.some_injective _ h2)
  exact ⟨rfl, rfl, rfl, rfl, rfl⟩

/-- C9 witness: two calls over the same concrete configuration agree. -/
theorem resolve_deterministic_witness :
    Clang.find cfgW9 none = Clang.find cfgW9 none :=
  (resolve_deterministic cfgW9 cfgW9 none rfl (fun _ => rfl)
    (fun _ _ => rfl) rfl rfl).1

/-- C10: when the selected candidate cannot be launched (the runner fails
on every argument list for its path), descriptor construction panics —
already at the version query — and resolution panics with it: it does not
skip the candidate to keep searching and does not return `None`, whether
the candidate came from the override or from the directory search. -/
theorem launch_failure_aborts (cfg : Config) (hint : Option Str) (p : Str)
    (h : ∀ args, cfg.run p args = none) :
    Clang.new cfg.run p = none ∧
    (cfg.env.clang_path = some p → Clang.find cfg hint = none) ∧
    (cfg.env.clang_path = none →
      searchDirs cfg.fs (candidatePaths cfg hint)
        (clangPatterns cfg.exe_suffix) = some p →
      Clang.find cfg hint = none) := by
  have hnew : Clang.new cfg.run p = none := by
    unfold Clang.new parse_version run_clang
    rw [h [("--version").toList]]
    rfl
  refine ⟨hnew, ?_, ?_⟩
  · intro hcp
    simp [Clang.find, hcp, hnew]
  · intro hcp hsd
    simp [Clang.find, hcp, hsd, hnew]

/-- C10 witness: with a runner that can launch nothing and a matching
candidate on the `PATH`, construction and resolution both panic. -/
theorem launch_failure_aborts_witness :
    Clang.new cfgW10.run pW10 = none ∧ Clang.find cfgW10 none = none := by
  have h := launch_failure_aborts cfgW10 none pW10 (fun _ => rfl)
  exact ⟨h.1, h.2.2 rfl (by decide)⟩

end ClangSys
